import Mathlib

/-!
Verification development for the mutagen exec transport and protocol code.

Strings are modelled as lists of characters. Go functions are translated
into executable Lean definitions and the claims of the specification are
settled as theorems about those definitions.
-/

set_option maxRecDepth 10000

namespace Mutagen

/-- A single quote character, written numerically to keep literals simple. -/
def squote : Char := Char.ofNat 39

/-- A double quote character. -/
def dquote : Char := Char.ofNat 34

/-- The lowercase exec URL scheme, source constant execURLPrefix. -/
def execURLPrefixChars : List Char := "exec:".toList

/-- URL kinds, source enum Kind. -/
inductive Kind where
  | Forwarding
  | Synchronization
deriving DecidableEq, Repr

/-- URL protocols, source enum Protocol; only the variants the claims need. -/
inductive Protocol where
  | Local
  | SSH
  | Exec
deriving DecidableEq, Repr

/-- The URL descriptor, source message URL. Environment and Parameters are
maps in the source; they are modelled as association lists, since the
claims only inspect emptiness. -/
structure URL where
  kind : Kind
  protocol : Protocol
  host : List Char
  path : List Char
  environment : List (List Char × List Char) := []
  parameters : List (List Char × List Char) := []
deriving DecidableEq, Repr

/-- State of the stateful rune predicate closure inside parseExec: whether
we are inside a quoted span and which quote character opened it. -/
structure SplitState where
  quoted : Bool
  quoteMark : Char
deriving DecidableEq, Repr

/-- One evaluation of the closure passed to strings.FieldsFunc in parseExec.
It first updates the quote-toggle state and then reports whether the rune
is an unquoted colon, that is, a separator. -/
def splitStep (s : SplitState) (r : Char) : SplitState × Bool :=
  let t :=
    if s.quoted && r == s.quoteMark then
      { s with quoted := false }
    else if !s.quoted && (r == dquote || r == squote) then
      { quoted := true, quoteMark := r }
    else
      s
  (t, !t.quoted && r == ':')

/-- Left-to-right scan of strings.FieldsFunc with the stateful predicate:
maximal runs of non-separator characters become fields, empty runs are
dropped. The accumulator holds the characters of the current run. -/
def fieldsFuncAux (s : SplitState) (acc : List Char) : List Char → List (List Char)
  | [] => if acc = [] then [] else [acc]
  | r :: rest =>
    let p := splitStep s r
    if p.2 then
      (if acc = [] then [] else [acc]) ++ fieldsFuncAux p.1 [] rest
    else
      fieldsFuncAux p.1 (acc ++ [r]) rest

/-- The quote-aware colon split used by parseExec, starting unquoted with a
double-quote mark, exactly as the Go closure initializes its captures. -/
def execFields (raw : List Char) : List (List Char) :=
  fieldsFuncAux ⟨false, dquote⟩ [] raw

/-- Quote stripping applied to the command field by parseExec: remove one
matching pair of surrounding single or double quotes, when present. -/
def stripQuotes (command : List Char) : List Char :=
  if command.length ≥ 2 ∧
      ((command.head? = some squote ∧ command.getLast? = some squote) ∨
        (command.head? = some dquote ∧ command.getLast? = some dquote)) then
    (command.drop 1).dropLast
  else
    command

/-- Case-insensitive scheme test, source isExecURL. -/
def isExecURL (raw : List Char) : Bool :=
  execURLPrefixChars.isPrefixOf (raw.map Char.toLower)

/-- The exec URL parser, source parseExec: strip the scheme, split the
remainder on unquoted colons, then case on the number of fields. The
command field has surrounding quotes stripped and is stored in the host
slot of the resulting URL. -/
def parseExec (raw0 : List Char) (kind : Kind) : Except String URL :=
  let raw := raw0.drop execURLPrefixChars.length
  match execFields raw with
  | [] => .error "no command or path specified"
  | [c] => .ok { kind := kind, protocol := .Exec, host := stripQuotes c, path := [] }
  | [c, p] => .ok { kind := kind, protocol := .Exec, host := stripQuotes c, path := p }
  | _ => .error "too many separators"

/-! ## Exec agent transport, source pkg/agent/transport/exec/transport.go -/

/-- The exec transport value, source struct execTransport: the command from
the exec URL and the prompter identifier, captured at construction. -/
structure ExecTransport where
  command : List Char
  prompter : List Char
deriving DecidableEq, Repr

/-- Source NewTransport: construct an exec transport; it cannot fail. -/
def NewTransport (command : List Char) (prompter : List Char) :
    Except String ExecTransport :=
  .ok { command := command, prompter := prompter }

/-- The process descriptor built by Command, source os/exec Cmd restricted
to the fields the code computes: the executable name and the arguments. -/
structure Cmd where
  name : List Char
  args : List (List Char)
deriving DecidableEq, Repr

/-- Index of the first occurrence of pat as a contiguous substring of s,
source strings.Index, with none for absence instead of -1. -/
def indexOf? : List Char → List Char → Option Nat
  | [], pat => if pat.isEmpty then some 0 else none
  | c :: rest, pat =>
    if pat.isPrefixOf (c :: rest) then some 0
    else (indexOf? rest pat).map (· + 1)

/-- Substring containment, source strings.Contains, which is defined in Go
as strings.Index being nonnegative. -/
def containsSubstr (s : List Char) (pat : List Char) : Bool :=
  (indexOf? s pat).isSome

/-- Split on every occurrence of a character, keeping empty fields, source
strings.Split with a one-character separator. The result is never empty. -/
def splitOnChar (sep : Char) : List Char → List (List Char)
  | [] => [[]]
  | c :: rest =>
    let r := splitOnChar sep rest
    if c == sep then [] :: r
    else (c :: r.headD []) :: r.tail

/-- The platform-specific marker located inside the stored command, source
variable firstSplitIndicator in Command. -/
def firstSplitIndicator (isWindows : Bool) : List Char :=
  if isWindows then "\\kubectl.exe ".toList else "/kubectl ".toList

/-- The splitting phase of Command applied to the (substituted) stored
command: locate the kubectl marker, make everything up to and including
the marker minus its trailing space argument 0, split the remainder on
spaces for the other arguments; fail when the marker is absent. -/
def splitStoredCommand (isWindows : Bool) (command : List Char) :
    Except String Cmd :=
  let ind := firstSplitIndicator isWindows
  match indexOf? command ind with
  | some index =>
    let arg0 := command.take (index + ind.length - 1)
    let remaining := command.drop (index + ind.length)
    let split := arg0 :: splitOnChar ' ' remaining
    .ok { name := split.headD [], args := split.tail }
  | none => .error "unable to identify kubectl invocation"

/-- Source method Command of execTransport. The passed-in string is only
tested for containing the agent base-name sentinel (source agent.BaseName,
passed here as a parameter since that constant lives outside the shown
sources); when present, the string is discarded and the stored command is
split instead; when absent, the method fails. The GOOS test is passed as
the isWindows flag. -/
def ExecTransport.runCommand (t : ExecTransport) (isWindows : Bool)
    (baseName : List Char) (command : List Char) : Except String Cmd :=
  if containsSubstr command baseName then
    splitStoredCommand isWindows t.command
  else
    .error "transport does not support this command"

/-- The four pattern tests consulted by ClassifyError, source functions of
pkg/process (not among the shown sources). ClassifyError reads its two
inputs only through these four tests, so the embedding takes the four
boolean outcomes for the given process state and error output. -/
structure ErrorClassifiers where
  isPOSIXShellInvalidCommand : Bool
  isPOSIXShellCommandNotFound : Bool
  outputIsWindowsInvalidCommand : Bool
  outputIsWindowsCommandNotFound : Bool
deriving DecidableEq, Repr

/-- Source method ClassifyError of execTransport: four pattern checks in
order, first match wins; the first component is tryInstall, the second is
the switch-to-Windows-hypothesis signal, the third the error result. -/
def ClassifyError (c : ErrorClassifiers) : Bool × Bool × Except String Unit :=
  if c.isPOSIXShellInvalidCommand then (false, false, .ok ())
  else if c.isPOSIXShellCommandNotFound then (false, false, .ok ())
  else if c.outputIsWindowsInvalidCommand then (false, true, .ok ())
  else if c.outputIsWindowsCommandNotFound then (false, true, .ok ())
  else (false, false, .error "unknown error condition encountered")

/-! ## Exec protocol handler Connect,
source pkg/synchronization/protocols/exec/protocol.go -/

/-- Outcome of the validation and construction phase of Connect, before any
dialing: a Go panic, a returned error, or proceeding to dial with the
constructed transport. -/
inductive ConnectStage where
  | panicked (message : String)
  | errored (message : String)
  | dialing (transport : ExecTransport)
deriving DecidableEq, Repr

/-- The phase of Connect up to and including transport construction, source
lines 41 to 60 of protocol.go: kind and protocol violations panic, presence
of environment variables or parameters is a returned validation error, and
transport construction feeds the dialing phase. -/
def connectStart (url : URL) (prompter : List Char) : ConnectStage :=
  if url.kind ≠ Kind.Synchronization then
    .panicked "non-synchronization URL dispatched to synchronization protocol handler"
  else if url.protocol ≠ Protocol.Exec then
    .panicked "non-Exec URL dispatched to Exec protocol handler"
  else if url.environment.length > 0 then
    .errored "exec URL contains environment variables"
  else if url.parameters.length > 0 then
    .errored "exec URL contains internal parameters"
  else
    match NewTransport url.host prompter with
    | .error _ => .errored "unable to create exec transport"
    | .ok t => .dialing t

/-! ## The concurrent dial in Connect, source lines 62 to 91 of protocol.go

The dialing phase is two concurrent units racing over an unbuffered
channel and a cancellable context, modelled as a small-step transition
system. The worker is the goroutine that runs agent.Dial and then selects
between sending its dialResult and observing context cancellation; the
caller is the body of Connect selecting between receiving the result and
observing cancellation. -/

/-- The caller side of the race: still blocked in the select, returned the
error connect operation cancelled, or returned holding the dial result
(the flag records whether the result carried a non-nil stream). -/
inductive CallerState where
  | waiting
  | returnedCancelled
  | returnedResult (stream : Bool)
deriving DecidableEq, Repr

/-- The worker goroutine: still inside agent.Dial; at its select with the
dial finished (the flag records whether the produced stream is non-nil);
result handed over the channel; or gone through the ctx.Done branch, which
closes a non-nil stream (closedStream) and does nothing otherwise. -/
inductive WorkerState where
  | dialing
  | selecting (stream : Bool)
  | sent (stream : Bool)
  | closedStream
  | exited
deriving DecidableEq, Repr

/-- Joint state of the dialing phase: whether the caller context has been
cancelled, plus both units. -/
structure ConnectSystem where
  cancelled : Bool
  caller : CallerState
  worker : WorkerState
deriving DecidableEq, Repr

/-- The initial state of the dialing phase: context live, caller blocked in
its select, worker inside agent.Dial. -/
def connectInit : ConnectSystem :=
  { cancelled := false, caller := .waiting, worker := .dialing }

/-- Interleaved small-step semantics of the dialing phase. A send on the
unbuffered channel is a rendezvous, possible only while the caller is
still waiting; each ctx.Done branch is possible only once the context is
cancelled; the caller cancellation step needs nothing from the worker. -/
inductive ConnectStep : ConnectSystem → ConnectSystem → Prop where
  | cancel (s : ConnectSystem) :
      s.cancelled = false →
      ConnectStep s { s with cancelled := true }
  | dialComplete (s : ConnectSystem) (b : Bool) :
      s.worker = .dialing →
      ConnectStep s { s with worker := .selecting b }
  | rendezvous (s : ConnectSystem) (b : Bool) :
      s.caller = .waiting →
      s.worker = .selecting b →
      ConnectStep s { s with caller := .returnedResult b, worker := .sent b }
  | callerCancelled (s : ConnectSystem) :
      s.cancelled = true →
      s.caller = .waiting →
      ConnectStep s { s with caller := .returnedCancelled }
  | workerCancelled (s : ConnectSystem) (b : Bool) :
      s.cancelled = true →
      s.worker = .selecting b →
      ConnectStep s { s with worker := if b then .closedStream else .exited }

/-- Reachability from the initial state of the dialing phase. -/
inductive ConnectReach : ConnectSystem → Prop where
  | init : ConnectReach connectInit
  | step {s t : ConnectSystem} :
      ConnectReach s → ConnectStep s t → ConnectReach t

/-! ## ServeEndpoint, source session/endpoint.go -/

/-- The inbound-accept backlog constant, source endpointAcceptBacklog. -/
def endpointAcceptBacklog : Nat := 100

/-- Source constants for the four endpoint method names. -/
def endpointMethodScan : String := "endpoint.Scan"

/-- Source constant endpointMethodTransmit. -/
def endpointMethodTransmit : String := "endpoint.Transmit"

/-- Source constant endpointMethodApply. -/
def endpointMethodApply : String := "endpoint.Apply"

/-- Source constant endpointMethodUpdate. -/
def endpointMethodUpdate : String := "endpoint.Update"

/-- Modelled from the spec: one accept step of the multiplexed connection,
as induced by the remote side, either yields a new logical sub-stream
carrying an RPC method call or fails. The duplex stream is abstracted by
the sequence of these outcomes; muxado itself is a third-party library and
is not among the sources. -/
inductive AcceptOutcome where
  | sub (method : String)
  | failure (message : String)
deriving DecidableEq, Repr

/-- The muxado multiplexer configuration, field AcceptBacklog. -/
structure MuxConfig where
  AcceptBacklog : Nat
deriving DecidableEq, Repr

/-- The protocol role a side takes on the symmetric multiplexer. -/
inductive MuxRole where
  | Server
  | Client
deriving DecidableEq, Repr

/-- The multiplexer value: the wrapped stream (abstracted into its accept
outcomes), the configuration, and the role. -/
structure Multiplexer where
  accepts : List AcceptOutcome
  config : MuxConfig
  role : MuxRole
deriving DecidableEq, Repr

/-- Modelled from the spec: muxado.Server wraps a duplex stream into a
multiplexer with the given configuration, designating this side the
Server role. -/
def muxadoServer (stream : List AcceptOutcome) (config : MuxConfig) :
    Multiplexer :=
  { accepts := stream, config := config, role := .Server }

/-- The RPC client opened over the multiplexed connection, source
rpc.NewClient; only its identity matters to the claims. -/
structure RpcClient where
  multiplexer : Multiplexer
deriving DecidableEq, Repr

/-- Source rpc.NewClient. -/
def rpcNewClient (m : Multiplexer) : RpcClient :=
  { multiplexer := m }

/-- The endpoint object, source struct endpoint: it owns the RPC client. -/
structure EndpointStruct where
  client : RpcClient
deriving DecidableEq, Repr

/-- Source newEndpoint. -/
def newEndpoint (client : RpcClient) : EndpointStruct :=
  { client := client }

/-- Tags for the four bound endpoint methods, whose bodies are TODO stubs
in the source. -/
inductive MethodTag where
  | scan
  | transmit
  | apply
  | update
deriving DecidableEq, Repr

/-- A registered handler: a method of a specific endpoint object, the
model of the bound method values endpoint.scan and so on. -/
abbrev Handler := EndpointStruct × MethodTag

/-- The handler table ServeEndpoint passes to rpc.NewServer, binding the
four method names to the endpoint object. -/
def serveEndpointHandlers (endpoint : EndpointStruct) :
    List (String × Handler) :=
  [(endpointMethodScan, (endpoint, .scan)),
    (endpointMethodTransmit, (endpoint, .transmit)),
    (endpointMethodApply, (endpoint, .apply)),
    (endpointMethodUpdate, (endpoint, .update))]

/-- Modelled from the spec: rpc.Server.Serve (rpc package not among the
sources) accepts logical sub-streams sequentially, dispatching each to the
handler table, until an accept fails, and returns that accept failure;
none models the loop still blocked waiting to accept. -/
def rpcServe (handlers : List (String × Handler)) :
    List AcceptOutcome → Option String
  | [] => none
  | .failure e :: _ => some e
  | .sub _ :: rest => rpcServe handlers rest

/-- Source errors.Wrap from github.com/pkg/errors restricted to messages:
wraps a non-nil error with a context message, passes nil through. -/
def errorsWrap (e : Option String) (message : String) : Option String :=
  e.map (fun s => message ++ ": " ++ s)

/-- The multiplexer built by ServeEndpoint over the given stream. -/
def serveEndpointMultiplexer (stream : List AcceptOutcome) : Multiplexer :=
  muxadoServer stream { AcceptBacklog := endpointAcceptBacklog }

/-- Source ServeEndpoint: wrap the stream as the Server side with the
accept backlog, open an RPC client, create the endpoint, bind the four
methods, and serve until accepting fails, returning the wrapped accept
failure; none models the still-serving (blocked) loop. -/
def ServeEndpoint (stream : List AcceptOutcome) : Option String :=
  let multiplexer := serveEndpointMultiplexer stream
  let client := rpcNewClient multiplexer
  let endpoint := newEndpoint client
  errorsWrap (rpcServe (serveEndpointHandlers endpoint) multiplexer.accepts)
    "error serving RPC requests"

/-! ## Theorems -/

/-- C3: ClassifyError always reports tryInstall false and checks the four
patterns in order with first match winning: the two POSIX-shell exit
shapes yield (false, false, success), the two Windows output patterns
yield (false, true, success), and when none of the four match it returns
the unknown-error-condition failure. -/
theorem classifyError_spec (c : ErrorClassifiers) :
    (ClassifyError c).1 = false ∧
    (c.isPOSIXShellInvalidCommand = true →
      ClassifyError c = (false, false, Except.ok ())) ∧
    (c.isPOSIXShellInvalidCommand = false →
      c.isPOSIXShellCommandNotFound = true →
      ClassifyError c = (false, false, Except.ok ())) ∧
    (c.isPOSIXShellInvalidCommand = false →
      c.isPOSIXShellCommandNotFound = false →
      c.outputIsWindowsInvalidCommand = true →
      ClassifyError c = (false, true, Except.ok ())) ∧
    (c.isPOSIXShellInvalidCommand = false →
      c.isPOSIXShellCommandNotFound = false →
      c.outputIsWindowsInvalidCommand = false →
      c.outputIsWindowsCommandNotFound = true →
      ClassifyError c = (false, true, Except.ok ())) ∧
    (c.isPOSIXShellInvalidCommand = false →
      c.isPOSIXShellCommandNotFound = false →
      c.outputIsWindowsInvalidCommand = false →
      c.outputIsWindowsCommandNotFound = false →
      ClassifyError c =
        (false, false, Except.error "unknown error condition encountered")) := by
  obtain ⟨a, b, d, e⟩ := c
  cases a <;> cases b <;> cases d <;> cases e <;>
    simp [ClassifyError]

/-- Witness for classifyError_spec: the Windows invalid-command pattern
alone produces the hypothesis-switch signal with tryInstall false. -/
theorem classifyError_spec_witness :
    ClassifyError ⟨false, false, true, false⟩ = (false, true, Except.ok ()) :=
  (classifyError_spec ⟨false, false, true, false⟩).2.2.2.1 rfl rfl rfl

/-- C4: Command fails with the fixed error when the passed string lacks
the agent base-name sentinel; when the sentinel is present, the passed
string is discarded entirely and the invocation is built from the stored
command alone. -/
theorem command_sentinel_spec (isWindows : Bool) (baseName : List Char)
    (t : ExecTransport) (command : List Char) :
    (containsSubstr command baseName = false →
      t.runCommand isWindows baseName command =
        .error "transport does not support this command") ∧
    (containsSubstr command baseName = true →
      t.runCommand isWindows baseName command =
        splitStoredCommand isWindows t.command) ∧
    (∀ other : List Char, containsSubstr command baseName = true →
      containsSubstr other baseName = true →
      t.runCommand isWindows baseName command =
        t.runCommand isWindows baseName other) := by
  refine ⟨fun h => ?_, fun h => ?_, fun other h1 h2 => ?_⟩ <;>
    simp [ExecTransport.runCommand, *]

/-- Witness for command_sentinel_spec: a command without the sentinel is
rejected, one with the sentinel is resolved from the stored command. -/
theorem command_sentinel_spec_witness :
    containsSubstr ['l', 's'] ['a', 'g'] = false ∧
    ExecTransport.runCommand ⟨['k'], []⟩ false ['a', 'g'] ['l', 's'] =
      .error "transport does not support this command" :=
  ⟨by decide,
    (command_sentinel_spec false ['a', 'g'] ⟨['k'], []⟩ ['l', 's']).1 (by decide)⟩

/-- C6: Connect panics on a URL of the wrong kind or protocol, and on a
well-kinded exec URL with environment variables or parameters it returns
the corresponding validation error and never reaches dialing. -/
theorem connect_validation_spec (url : URL) (prompter : List Char) :
    (url.kind ≠ Kind.Synchronization →
      connectStart url prompter =
        .panicked "non-synchronization URL dispatched to synchronization protocol handler") ∧
    (url.kind = Kind.Synchronization → url.protocol ≠ Protocol.Exec →
      connectStart url prompter =
        .panicked "non-Exec URL dispatched to Exec protocol handler") ∧
    (url.kind = Kind.Synchronization → url.protocol = Protocol.Exec →
      url.environment ≠ [] →
      connectStart url prompter =
        .errored "exec URL contains environment variables") ∧
    (url.kind = Kind.Synchronization → url.protocol = Protocol.Exec →
      url.environment = [] → url.parameters ≠ [] →
      connectStart url prompter =
        .errored "exec URL contains internal parameters") ∧
    ((url.environment ≠ [] ∨ url.parameters ≠ []) →
      ∀ t : ExecTransport, connectStart url prompter ≠ .dialing t) := by
  refine ⟨fun hk => ?_, fun hk hp => ?_, fun hk hp he => ?_,
    fun hk hp he hq => ?_, fun hep t hdial => ?_⟩
  · simp [connectStart, hk]
  · simp [connectStart, hk, hp]
  · have : 0 < url.environment.length := List.length_pos.mpr he
    simp [connectStart, hk, hp, this]
  · have : 0 < url.parameters.length := List.length_pos.mpr hq
    simp [connectStart, hk, hp, he, this]
  · rw [connectStart] at hdial
    rcases hep with he | hq
    · have h0 : 0 < url.environment.length := List.length_pos.mpr he
      split_ifs at hdial
    · have h0 : 0 < url.parameters.length := List.length_pos.mpr hq
      split_ifs at hdial

/-- Witness for connect_validation_spec: a forwarding-kind URL panics, and
an exec URL with an environment variable yields the validation error. -/
theorem connect_validation_spec_witness :
    connectStart ⟨Kind.Forwarding, Protocol.Exec, [], [], [], []⟩ [] =
      .panicked "non-synchronization URL dispatched to synchronization protocol handler" ∧
    connectStart ⟨Kind.Synchronization, Protocol.Exec, [], [], [([], [])], []⟩ [] =
      .errored "exec URL contains environment variables" :=
  ⟨(connect_validation_spec ⟨Kind.Forwarding, Protocol.Exec, [], [], [], []⟩ []).1
      (by decide),
    (connect_validation_spec
        ⟨Kind.Synchronization, Protocol.Exec, [], [], [([], [])], []⟩ []).2.2.1
      rfl rfl (by simp)⟩

/-- C10: NewTransport succeeds on every input, so the transport
construction error branch of Connect is unreachable for every URL. -/
theorem newTransport_total (command prompter : List Char) (url : URL)
    (p : List Char) :
    NewTransport command prompter = .ok ⟨command, prompter⟩ ∧
    connectStart url p ≠ .errored "unable to create exec transport" := by
  refine ⟨rfl, fun h => ?_⟩
  rw [connectStart] at h
  split_ifs at h <;> simp_all [NewTransport]

/-- The modelled serve loop returns the first accept failure. -/
theorem rpcServe_first_failure (handlers : List (String × Handler))
    (pre : List AcceptOutcome) (msg : String) (post : List AcceptOutcome)
    (hpre : ∀ x ∈ pre, ∀ m, x ≠ AcceptOutcome.failure m) :
    rpcServe handlers (pre ++ AcceptOutcome.failure msg :: post) = some msg := by
  induction pre with
  | nil => rfl
  | cons x rest ih =>
    have hx := hpre x (List.mem_cons_self x rest)
    cases x with
    | sub m =>
      exact ih fun y hy => hpre y (List.mem_cons_of_mem _ hy)
    | failure m => exact absurd rfl (hx m)

/-- The modelled serve loop stays blocked while no accept fails. -/
theorem rpcServe_no_failure (handlers : List (String × Handler))
    (l : List AcceptOutcome)
    (hl : ∀ x ∈ l, ∀ m, x ≠ AcceptOutcome.failure m) :
    rpcServe handlers l = none := by
  induction l with
  | nil => rfl
  | cons x rest ih =>
    have hx := hl x (List.mem_cons_self x rest)
    cases x with
    | sub m => exact ih fun y hy => hl y (List.mem_cons_of_mem _ hy)
    | failure m => exact absurd rfl (hx m)

/-- C8: ServeEndpoint wraps the stream as the Server side of a multiplexer
with accept backlog exactly 100, binds exactly the four endpoint method
names to the endpoint object, serves until an accept fails and returns
that failure wrapped with context, and returns nothing sooner. -/
theorem serveEndpoint_spec (stream : List AcceptOutcome) :
    (serveEndpointMultiplexer stream).role = MuxRole.Server ∧
    (serveEndpointMultiplexer stream).config.AcceptBacklog = 100 ∧
    (serveEndpointMultiplexer stream).accepts = stream ∧
    (∀ e : EndpointStruct,
      serveEndpointHandlers e =
        [("endpoint.Scan", (e, MethodTag.scan)),
          ("endpoint.Transmit", (e, MethodTag.transmit)),
          ("endpoint.Apply", (e, MethodTag.apply)),
          ("endpoint.Update", (e, MethodTag.update))]) ∧
    (∀ pre msg post, (∀ x ∈ pre, ∀ m, x ≠ AcceptOutcome.failure m) →
      ServeEndpoint (pre ++ AcceptOutcome.failure msg :: post) =
        some ("error serving RPC requests: " ++ msg)) ∧
    (∀ l : List AcceptOutcome, (∀ x ∈ l, ∀ m, x ≠ AcceptOutcome.failure m) →
      ServeEndpoint l = none) := by
  refine ⟨rfl, rfl, rfl, fun e => rfl, fun pre msg post hpre => ?_,
    fun l hl => ?_⟩
  · simp only [ServeEndpoint, serveEndpointMultiplexer, muxadoServer]
    rw [rpcServe_first_failure _ pre msg post hpre]
    rfl
  · simp only [ServeEndpoint, serveEndpointMultiplexer, muxadoServer]
    rw [rpcServe_no_failure _ l hl]
    rfl

/-- Witness for serveEndpoint_spec: a stream whose very first accept fails
makes ServeEndpoint return the wrapped failure at once. -/
theorem serveEndpoint_spec_witness :
    ServeEndpoint [AcceptOutcome.failure "eof"] =
      some ("error serving RPC requests: " ++ "eof") :=
  (serveEndpoint_spec [AcceptOutcome.failure "eof"]).2.2.2.2.1 [] "eof" []
    (by simp)

/-- Inductive invariant of the dialing phase: a result can only have been
sent to a caller that returned holding it, and a caller that returned the
cancellation error has seen the context cancelled. -/
theorem connectReach_invariant (s : ConnectSystem) (h : ConnectReach s) :
    (∀ b, s.worker = .sent b → s.caller = .returnedResult b) ∧
    (s.caller = .returnedCancelled → s.cancelled = true) := by
  induction h with
  | init => exact ⟨fun b hb => by simp [connectInit] at hb, fun hc => by
      simp [connectInit] at hc⟩
  | step hr hst ih =>
    cases hst with
    | cancel hc =>
      exact ⟨fun b hb => ih.1 b hb, fun _ => rfl⟩
    | dialComplete b hw =>
      exact ⟨fun b2 hb2 => by simp at hb2, fun hc => ih.2 hc⟩
    | rendezvous b hcal hw =>
      refine ⟨fun b2 hb2 => ?_, fun hc => by simp at hc⟩
      simp at hb2 ⊢
      simp [hb2]
    | callerCancelled hc hcal =>
      refine ⟨fun b hb => ?_, fun _ => hc⟩
      have hres := ih.1 b hb
      rw [hcal] at hres
      simp at hres
    | workerCancelled b hc hw =>
      refine ⟨fun b2 hb2 => ?_, fun hcal => ih.2 hcal⟩
      by_cases hb : b = true <;> simp [hb] at hb2

/-- C2: once Connect has returned the cancellation error, the dial result
is never delivered to anyone; while the worker then holds a non-nil
stream at its select, the only step it can take closes that stream; the
cancellation return step is enabled by cancellation alone, with no
condition on the worker; and the full scenario, cancellation return while
the worker is still dialing followed by the worker completing with a
stream and closing it, is reachable. -/
theorem connect_cancellation_race :
    (∀ s : ConnectSystem, ConnectReach s → s.caller = .returnedCancelled →
      ∀ b, s.worker ≠ .sent b) ∧
    (∀ s t : ConnectSystem, ConnectReach s →
      s.caller = .returnedCancelled → s.worker = .selecting true →
      ConnectStep s t →
      t.worker = .closedStream ∧ t.caller = .returnedCancelled) ∧
    (∀ s : ConnectSystem, s.cancelled = true → s.caller = .waiting →
      ConnectStep s { s with caller := .returnedCancelled }) ∧
    ConnectReach ⟨true, .returnedCancelled, .dialing⟩ ∧
    ConnectReach ⟨true, .returnedCancelled, .selecting true⟩ ∧
    ConnectReach ⟨true, .returnedCancelled, .closedStream⟩ := by
  have h2 : ConnectReach ⟨true, .waiting, .dialing⟩ :=
    ConnectReach.step ConnectReach.init (ConnectStep.cancel connectInit rfl)
  have h3 : ConnectReach ⟨true, .returnedCancelled, .dialing⟩ :=
    ConnectReach.step h2 (ConnectStep.callerCancelled _ rfl rfl)
  have h4 : ConnectReach ⟨true, .returnedCancelled, .selecting true⟩ :=
    ConnectReach.step h3 (ConnectStep.dialComplete _ true rfl)
  have h5 : ConnectReach ⟨true, .returnedCancelled, .closedStream⟩ :=
    ConnectReach.step h4 (ConnectStep.workerCancelled _ true rfl rfl)
  refine ⟨fun s hs hc b hb => ?_, fun s t hs hc hw hst => ?_,
    fun s hcan hcal => ConnectStep.callerCancelled s hcan hcal, h3, h4, h5⟩
  · have := (connectReach_invariant s hs).1 b hb
    rw [hc] at this
    cases this
  · have hcancel : s.cancelled = true := (connectReach_invariant s hs).2 hc
    cases hst with
    | cancel hc2 => rw [hcancel] at hc2; simp at hc2
    | dialComplete b hw2 => rw [hw] at hw2; simp at hw2
    | rendezvous b hcal hw2 => rw [hc] at hcal; simp at hcal
    | callerCancelled hc2 hcal => rw [hc] at hcal; simp at hcal
    | workerCancelled b hc2 hw2 =>
      rw [hw] at hw2
      injection hw2 with hb
      subst hb
      exact ⟨rfl, hc⟩

/-- Witness for connect_cancellation_race: concrete states exercising the
cancellation return step and the no-delivery consequence. -/
theorem connect_cancellation_race_witness :
    (⟨true, .returnedCancelled, .dialing⟩ : ConnectSystem).worker ≠
      WorkerState.sent true ∧
    ConnectStep ⟨true, .waiting, .dialing⟩
      ⟨true, .returnedCancelled, .dialing⟩ :=
  ⟨connect_cancellation_race.1 ⟨true, .returnedCancelled, .dialing⟩
      connect_cancellation_race.2.2.2.1 rfl true,
    connect_cancellation_race.2.2.1 ⟨true, .waiting, .dialing⟩ rfl rfl⟩

/-- On a character that is neither a colon nor a quote, the stateful
predicate leaves an unquoted state unchanged and reports no separator. -/
theorem splitStep_plain (m c : Char) (h1 : c ≠ ':') (h2 : c ≠ dquote)
    (h3 : c ≠ squote) : splitStep ⟨false, m⟩ c = (⟨false, m⟩, false) := by
  simp [splitStep, h1, h2, h3]

/-- A colon in an unquoted state is a separator and leaves the state
unchanged. -/
theorem splitStep_colon (m : Char) :
    splitStep ⟨false, m⟩ ':' = (⟨false, m⟩, true) := by
  have hq : ((':' == dquote) || (':' == squote)) = false := by decide
  simp [splitStep, hq]

/-- Scanning a run of plain characters (no colon, no quote) accumulates
them all into one final field. -/
theorem fieldsFuncAux_plain (p : List Char) :
    ∀ (m : Char) (acc : List Char),
    (∀ c ∈ p, c ≠ ':' ∧ c ≠ dquote ∧ c ≠ squote) →
    fieldsFuncAux ⟨false, m⟩ acc p =
      if acc ++ p = [] then [] else [acc ++ p] := by
  induction p with
  | nil => intro m acc hp; simp [fieldsFuncAux]
  | cons c rest ih =>
    intro m acc hp
    obtain ⟨h1, h2, h3⟩ := hp c (List.mem_cons_self c rest)
    have hstep := splitStep_plain m c h1 h2 h3
    have hrec := ih m (acc ++ [c])
      (fun x hx => hp x (List.mem_cons_of_mem c hx))
    simp only [fieldsFuncAux, hstep]
    simp only [List.append_assoc, List.singleton_append] at hrec
    simpa using hrec

/-- The splitter never produces an empty field. -/
theorem fieldsFuncAux_no_empty (p : List Char) :
    ∀ (s : SplitState) (acc : List Char), [] ∉ fieldsFuncAux s acc p := by
  induction p with
  | nil =>
    intro s acc
    simp only [fieldsFuncAux]
    split
    · simp
    · simpa using fun h => by simp_all
  | cons c rest ih =>
    intro s acc
    simp only [fieldsFuncAux]
    split
    · intro hmem
      rcases List.mem_append.mp hmem with hL | hR
      · revert hL
        split
        · simp
        · simpa using fun h => by simp_all
      · exact ih _ [] hR
    · exact ih _ (acc ++ [c])

/-- A field containing no quote characters passes through quote stripping
unchanged. -/
theorem stripQuotes_plain (p : List Char)
    (hp : ∀ c ∈ p, c ≠ dquote ∧ c ≠ squote) : stripQuotes p = p := by
  rw [stripQuotes, if_neg]
  rintro ⟨hlen, hq | hq⟩
  · obtain ⟨hhead, -⟩ := hq
    have hmem : squote ∈ p := by
      cases p with
      | nil => simp at hhead
      | cons a rest =>
        simp only [List.head?] at hhead
        cases hhead
        exact List.mem_cons_self _ _
    exact (hp squote hmem).2 rfl
  · obtain ⟨hhead, -⟩ := hq
    have hmem : dquote ∈ p := by
      cases p with
      | nil => simp at hhead
      | cons a rest =>
        simp only [List.head?] at hhead
        cases hhead
        exact List.mem_cons_self _ _
    exact (hp dquote hmem).1 rfl

/-- C1 counterexample: for the raw string exec: followed by a
single-quoted command, the split yields exactly one field, yet the
resulting host is not that field: the surrounding quotes are stripped. -/
theorem parseExec_literal_field_refuted :
    execFields (("exec:".toList ++ [squote, 'a', 'b', squote]).drop
        execURLPrefixChars.length) = [[squote, 'a', 'b', squote]] ∧
    parseExec ("exec:".toList ++ [squote, 'a', 'b', squote])
        Kind.Synchronization =
      .ok { kind := Kind.Synchronization, protocol := Protocol.Exec, host := ['a', 'b'], path := [] } ∧
    (['a', 'b'] : List Char) ≠ [squote, 'a', 'b', squote] := by
  refine ⟨by decide, by rfl, by decide⟩

/-- C1 (amended): for every raw string with the case-insensitive exec:
scheme, parseExec strips the five-character scheme and splits on unquoted
colons; zero fields fail with no-command, more than two fail with
too-many-separators, one field succeeds with that field, quote-stripped,
as the command (host) and an empty path, and two fields succeed with the
first field, quote-stripped, as command and the second, verbatim, as
path; every success carries the Exec protocol. -/
theorem parseExec_field_cases (raw : List Char) (k : Kind)
    (h : isExecURL raw = true) :
    (execFields (raw.drop execURLPrefixChars.length) = [] →
      parseExec raw k = .error "no command or path specified") ∧
    ((execFields (raw.drop execURLPrefixChars.length)).length > 2 →
      parseExec raw k = .error "too many separators") ∧
    (∀ c, execFields (raw.drop execURLPrefixChars.length) = [c] →
      parseExec raw k = .ok { kind := k, protocol := Protocol.Exec, host := stripQuotes c, path := [] }) ∧
    (∀ c p, execFields (raw.drop execURLPrefixChars.length) = [c, p] →
      parseExec raw k = .ok { kind := k, protocol := Protocol.Exec, host := stripQuotes c, path := p }) := by
  refine ⟨fun h0 => ?_, fun h3 => ?_, fun c hc => ?_, fun c p hcp => ?_⟩
  · rw [parseExec, h0]
  · rw [parseExec]
    rcases hl : execFields (raw.drop execURLPrefixChars.length) with
      _ | ⟨a, _ | ⟨b, _ | ⟨d, rest⟩⟩⟩ <;> rw [hl] at h3 <;> simp at h3
  · rw [parseExec, hc]
  · rw [parseExec, hcp]

/-- Witness for parseExec_field_cases at the two-field input exec:a:b. -/
theorem parseExec_field_cases_witness :
    isExecURL "exec:a:b".toList = true ∧
    parseExec "exec:a:b".toList Kind.Synchronization =
      .ok { kind := Kind.Synchronization, protocol := Protocol.Exec, host := stripQuotes ['a'], path := ['b'] } :=
  ⟨by decide,
    (parseExec_field_cases "exec:a:b".toList Kind.Synchronization
        (by decide)).2.2.2 ['a'] ['b'] (by decide)⟩

/-- C7: for every exec URL of the shape exec:cmd:path whose remainder
splits back into exactly the two fields cmd and path, parsing yields the
command field with one matching pair of surrounding quotes stripped as
the host and the path field verbatim, quotes included, as the path. -/
theorem parseExec_roundtrip (cmd path : List Char) (k : Kind)
    (h : execFields (cmd ++ ':' :: path) = [cmd, path]) :
    parseExec (execURLPrefixChars ++ (cmd ++ ':' :: path)) k =
      .ok { kind := k, protocol := Protocol.Exec, host := stripQuotes cmd, path := path } := by
  rw [parseExec]
  have hd : (execURLPrefixChars ++ (cmd ++ ':' :: path)).drop
      execURLPrefixChars.length = cmd ++ ':' :: path :=
    List.drop_left execURLPrefixChars (cmd ++ ':' :: path)
  rw [hd, h]

/-- Witness for parseExec_roundtrip: a quoted command containing a colon
and a path that keeps its quotes. -/
theorem parseExec_roundtrip_witness :
    execFields (([squote, 'a', ':', 'b', squote] ++ ':' :: [dquote, 'c', dquote])) =
      [[squote, 'a', ':', 'b', squote], [dquote, 'c', dquote]] ∧
    parseExec (execURLPrefixChars ++
        ([squote, 'a', ':', 'b', squote] ++ ':' :: [dquote, 'c', dquote]))
        Kind.Synchronization =
      .ok { kind := Kind.Synchronization, protocol := Protocol.Exec, host := stripQuotes [squote, 'a', ':', 'b', squote], path := [dquote, 'c', dquote] } :=
  ⟨by decide,
    parseExec_roundtrip [squote, 'a', ':', 'b', squote] [dquote, 'c', dquote]
      Kind.Synchronization (by decide)⟩

/-- C9: the splitter drops empty fields, and consequently an input of the
shape exec:: followed by a nonempty colon-free quote-free command parses
successfully with that command as host and an empty path. -/
theorem execFields_drop_empty (k : Kind) :
    (∀ raw : List Char, [] ∉ execFields raw) ∧
    (∀ p : List Char, p ≠ [] →
      (∀ c ∈ p, c ≠ ':' ∧ c ≠ dquote ∧ c ≠ squote) →
      parseExec ("exec::".toList ++ p) k =
        .ok { kind := k, protocol := Protocol.Exec, host := p, path := [] }) := by
  constructor
  · intro raw
    exact fieldsFuncAux_no_empty raw ⟨false, dquote⟩ []
  · intro p hne hp
    have hdrop : (("exec::".toList ++ p).drop execURLPrefixChars.length) =
        ':' :: p := by
      have : "exec::".toList = execURLPrefixChars ++ [':'] := by decide
      rw [this, List.append_assoc, List.drop_left]
      rfl
    have hfields : execFields (':' :: p) = [p] := by
      rw [execFields]
      simp only [fieldsFuncAux, splitStep_colon]
      rw [fieldsFuncAux_plain p dquote [] hp]
      simp [hne]
    rw [parseExec, hdrop, hfields]
    simp [stripQuotes_plain p (fun c hc => ⟨(hp c hc).2.1, (hp c hc).2.2⟩)]

/-- Witness for execFields_drop_empty at the input exec::p. -/
theorem execFields_drop_empty_witness :
    parseExec ("exec::".toList ++ ['p']) Kind.Synchronization =
      .ok { kind := Kind.Synchronization, protocol := Protocol.Exec, host := ['p'], path := [] } :=
  (execFields_drop_empty Kind.Synchronization).2 ['p'] (by decide) (by decide)

/-- A nonempty pattern is never a prefix of the empty list, and the empty
pattern always is. -/
theorem isPrefixOf_nil_eq (pat : List Char) :
    pat.isPrefixOf ([] : List Char) = pat.isEmpty := by
  cases pat <;> rfl

/-- indexOf? returns none exactly when the pattern occurs nowhere, that
is, is a prefix of no suffix. -/
theorem indexOf?_none_iff (pat : List Char) :
    ∀ s : List Char,
      (indexOf? s pat = none ↔ ∀ i, pat.isPrefixOf (s.drop i) = false) := by
  intro s
  induction s with
  | nil =>
    simp only [indexOf?, List.drop_nil]
    constructor
    · intro h i
      rw [isPrefixOf_nil_eq]
      by_cases he : pat.isEmpty <;> simp_all
    · intro h
      have h0 := h 0
      rw [isPrefixOf_nil_eq] at h0
      simp [h0]
  | cons c rest ih =>
    simp only [indexOf?]
    constructor
    · intro h i
      by_cases hp : pat.isPrefixOf (c :: rest) = true
      · simp [hp] at h
      · cases i with
        | zero =>
          exact Bool.eq_false_iff.mpr hp
        | succ j =>
          simp only [hp, if_neg, Bool.false_eq_true, Option.map_eq_none] at h
          exact (ih.mp (by simpa using h)) j
    · intro h
      have h0 := h 0
      simp only [List.drop_zero] at h0
      have hrest : indexOf? rest pat = none :=
        ih.mpr fun j => by simpa using h (j + 1)
      simp [h0, hrest]

/-- indexOf? returns the index of the first occurrence of the pattern. -/
theorem indexOf?_some_spec (pat : List Char) :
    ∀ (s : List Char) (i : Nat), indexOf? s pat = some i →
      pat.isPrefixOf (s.drop i) = true ∧
      ∀ j, j < i → pat.isPrefixOf (s.drop j) = false := by
  intro s
  induction s with
  | nil =>
    intro i h
    simp only [indexOf?] at h
    split at h
    · cases h
      refine ⟨by simp_all [isPrefixOf_nil_eq], fun j hj => by omega⟩
    · cases h
  | cons c rest ih =>
    intro i h
    simp only [indexOf?] at h
    split at h
    · rename_i hp
      cases h
      exact ⟨hp, fun j hj => by omega⟩
    · rename_i hp
      rcases Option.map_eq_some'.mp h with ⟨i2, hi2, rfl⟩
      obtain ⟨h1, h2⟩ := ih i2 hi2
      refine ⟨by simpa using h1, fun j hj => ?_⟩
      cases j with
      | zero =>
        exact Bool.eq_false_iff.mpr hp
      | succ j2 =>
        have h3 := h2 j2 (by omega)
        simpa using h3

/-- C5: the marker is the Windows or POSIX kubectl token; when Command
splits the stored command it locates the first marker occurrence, makes
everything up to and including the marker minus the trailing space
argument 0, splits the remainder on spaces for the other arguments, and
when the marker occurs nowhere in the stored command it fails with the
fixed error. -/
theorem command_marker_split (isWindows : Bool) (baseName : List Char)
    (t : ExecTransport) (command : List Char)
    (hc : containsSubstr command baseName = true) :
    (firstSplitIndicator true = "\\kubectl.exe ".toList ∧
      firstSplitIndicator false = "/kubectl ".toList) ∧
    (∀ i, indexOf? t.command (firstSplitIndicator isWindows) = some i →
      ((firstSplitIndicator isWindows).isPrefixOf (t.command.drop i) = true ∧
        ∀ j, j < i →
          (firstSplitIndicator isWindows).isPrefixOf (t.command.drop j) = false) ∧
      t.runCommand isWindows baseName command =
        .ok { name := t.command.take (i + (firstSplitIndicator isWindows).length - 1), args := splitOnChar ' ' (t.command.drop (i + (firstSplitIndicator isWindows).length)) }) ∧
    ((∀ i, (firstSplitIndicator isWindows).isPrefixOf (t.command.drop i) = false) →
      t.runCommand isWindows baseName command =
        .error "unable to identify kubectl invocation") := by
  refine ⟨⟨rfl, rfl⟩,
    fun i hi => ⟨indexOf?_some_spec (firstSplitIndicator isWindows) t.command i hi, ?_⟩,
    fun habs => ?_⟩
  · simp [ExecTransport.runCommand, hc, splitStoredCommand, hi]
  · have hnone : indexOf? t.command (firstSplitIndicator isWindows) = none :=
      (indexOf?_none_iff (firstSplitIndicator isWindows) t.command).mpr habs
    simp [ExecTransport.runCommand, hc, splitStoredCommand, hnone]

/-- Witness for command_marker_split: a stored command with the POSIX
kubectl marker at index 1 splits into the wrapper path and the remainder
arguments. -/
theorem command_marker_split_witness :
    containsSubstr ['m', 'a'] ['a'] = true ∧
    indexOf? "a/kubectl x".toList (firstSplitIndicator false) = some 1 ∧
    ExecTransport.runCommand ⟨"a/kubectl x".toList, []⟩ false ['a'] ['m', 'a'] =
      .ok { name := "a/kubectl x".toList.take (1 + (firstSplitIndicator false).length - 1), args := splitOnChar ' ' ("a/kubectl x".toList.drop (1 + (firstSplitIndicator false).length)) } :=
  ⟨by decide, by decide,
    ((command_marker_split false ['a'] ⟨"a/kubectl x".toList, []⟩ ['m', 'a']
        (by decide)).2.1 1 (by decide)).2⟩

end Mutagen
